import Mathlib

/-!
Verification of the search fallback and answer-synthesis pipeline of the
memvid VS Code extension.

The development shallowly embeds the TypeScript core:
  * `MemoryManager.extractKeywords` (src/memoryManager.ts)
  * `MemoryManager.search` (the tiered fallback orchestrator)
  * `LlmService.parseSearchTerms` and `LlmService.rewriteQuery`
    (src/services/llmService.ts)
  * `MemvidMcpServer.handleAsk` / `handleTimeline` (mcpServer)
  * `MemoryManager.getTimeline`
  * the loopback bridge request router (bridgeServer)

Strings are modelled as Lean `String`/`List Char` (code points; JavaScript
`.length` counts UTF-16 units, which coincides on the Basic Multilingual
Plane characters this code manipulates).  JavaScript `toLowerCase` and the
Unicode classes `\p{L}\p{N}` of the keyword regex are modelled over the
ASCII + German Latin-1 repertoire actually exercised by the program; all
universally quantified theorems below hold for any such classifier.
External collaborators (the storage engine `find`/`timeline`, the LLM
providers) are passed in as function/value parameters, with a thrown
JavaScript exception modelled as `Except.error`.
-/

/-- Uppercase→lowercase table modelling JavaScript `String.toLowerCase`
restricted to the ASCII letters plus the German umlauts that occur in the
stopword list. -/
def lowerMap : List (Char × Char) :=
  [('A', 'a'), ('B', 'b'), ('C', 'c'), ('D', 'd'), ('E', 'e'), ('F', 'f'),
   ('G', 'g'), ('H', 'h'), ('I', 'i'), ('J', 'j'), ('K', 'k'), ('L', 'l'),
   ('M', 'm'), ('N', 'n'), ('O', 'o'), ('P', 'p'), ('Q', 'q'), ('R', 'r'),
   ('S', 's'), ('T', 't'), ('U', 'u'), ('V', 'v'), ('W', 'w'), ('X', 'x'),
   ('Y', 'y'), ('Z', 'z'), ('Ä', 'ä'), ('Ö', 'ö'), ('Ü', 'ü')]

/-- Lowercase one character (model of JS `toLowerCase`, per character). -/
def toLowerChar (c : Char) : Char :=
  match lowerMap.find? (fun q => q.1 == c) with
  | some p => p.2
  | none => c

/-- Lowercase a character list (model of JS `String.prototype.toLowerCase`). -/
def toLowerL (l : List Char) : List Char := l.map toLowerChar

/-- Model of the JS regex class `\s` (the whitespace characters this code
ever produces or meets: space, tab, newline, carriage return). -/
def isSpaceChar (c : Char) : Bool :=
  c.toNat = 32 || c.toNat = 9 || c.toNat = 10 || c.toNat = 13

/-- Model of the Unicode classes `\p{L}\p{N}` of the keyword regex
`[^\p{L}\p{N}\s]`, over the ASCII + German Latin-1 repertoire:
digits, ASCII letters, and the German letters äöüß and their capitals. -/
def isWordChar (c : Char) : Bool :=
  (48 ≤ c.toNat && c.toNat ≤ 57) || (65 ≤ c.toNat && c.toNat ≤ 90) ||
  (97 ≤ c.toNat && c.toNat ≤ 122) || c.toNat = 196 || c.toNat = 214 ||
  c.toNat = 220 || c.toNat = 223 || c.toNat = 228 || c.toNat = 246 ||
  c.toNat = 252

/-- `query.replace(/[^\p{L}\p{N}\s]/gu, ' ')`: every character that is
neither letter/digit nor whitespace becomes a space. -/
def replaceNonWord (l : List Char) : List Char :=
  l.map (fun c => if isWordChar c || isSpaceChar c then c else ' ')

/-- Split a character list at every character satisfying `p`
(`String.prototype.split` semantics: empty fragments are kept, and the
empty input yields one empty fragment).  The JS regexes `/\s+/` and
`/[,\n]+/` additionally collapse separator runs; the extra empty fragments
produced here are removed by the length filters downstream, so the final
results coincide. -/
def splitPL (p : Char → Bool) : List Char → List (List Char)
  | [] => [[]]
  | c :: cs =>
    if p c then [] :: splitPL p cs
    else
      match splitPL p cs with
      | [] => [[c]]
      | t :: ts => (c :: t) :: ts

/-- The bilingual stopword set of `MemoryManager.extractKeywords`,
transcribed verbatim from src/memoryManager.ts (duplicates of the JS
`Set` literal kept; membership is unaffected). -/
def stopwords : List String :=
  ["der", "die", "das", "den", "dem", "des", "ein", "eine", "einer", "einem", "einen",
   "und", "oder", "aber", "wenn", "weil", "dass", "als", "auch", "noch", "schon",
   "ist", "sind", "war", "waren", "wird", "werden", "hat", "haben", "hatte", "hatten",
   "kann", "können", "konnte", "konnten", "muss", "müssen", "soll", "sollen",
   "was", "wer", "wie", "wo", "wann", "warum", "welche", "welcher", "welches",
   "ich", "du", "er", "sie", "es", "wir", "ihr", "mein", "dein", "sein", "ihr",
   "nicht", "kein", "keine", "keiner", "nur", "sehr", "mehr", "viel", "alle", "alles",
   "für", "mit", "bei", "von", "zu", "nach", "aus", "über", "unter", "zwischen",
   "durch", "gegen", "ohne", "um", "an", "auf", "in", "vor", "hinter", "neben",
   "the", "a", "an", "is", "are", "was", "were", "be", "been", "being",
   "have", "has", "had", "do", "does", "did", "will", "would", "could", "should",
   "what", "which", "who", "whom", "this", "that", "these", "those",
   "i", "you", "he", "she", "it", "we", "they", "my", "your", "his", "her", "its",
   "and", "or", "but", "if", "because", "as", "while", "of", "at", "by", "for",
   "with", "about", "against", "between", "into", "through", "during", "before",
   "after", "above", "below", "to", "from", "up", "down", "in", "out", "on", "off",
   "can", "all", "any", "both", "each", "few", "more", "most", "other", "some",
   "such", "no", "nor", "not", "only", "own", "same", "so", "than", "too", "very"]

/-- The stopword set as character lists. -/
def stopwordsL : List (List Char) := stopwords.map String.data

/-- First-occurrence deduplication with an accumulator of already seen
elements; `dedupFirst` below models `[...new Set(words)]`, which keeps the
first occurrence of each element in insertion order. -/
def dedupFirstAux (seen : List (List Char)) : List (List Char) → List (List Char)
  | [] => []
  | a :: l =>
    if a ∈ seen then dedupFirstAux seen l
    else a :: dedupFirstAux (a :: seen) l

/-- `[...new Set(words)]`: remove duplicates, keeping first occurrences. -/
def dedupFirst (l : List (List Char)) : List (List Char) := dedupFirstAux [] l

/-- `MemoryManager.extractKeywords` (src/memoryManager.ts): lowercase the
query, replace every non-letter/non-digit character by a space, split on
whitespace, keep tokens of length > 2 that are not stopwords, and remove
duplicates. -/
def extractKeywords (q : List Char) : List (List Char) :=
  dedupFirst
    ((splitPL isSpaceChar (replaceNonWord (toLowerL q))).filter
      (fun w => decide (2 < w.length) && !(decide (w ∈ stopwordsL))))

/-- `extractKeywords` at the `String` interface of the TS function. -/
def extractKeywordsS (q : String) : List String :=
  (extractKeywords q.data).map (fun w => String.mk w)

/-- Join keyword lists with single spaces (the whitespace-join used to
state idempotence of the extraction). -/
def joinSp : List (List Char) → List Char
  | [] => []
  | [w] => w
  | w :: ws => w ++ ' ' :: joinSp ws

/-! ## Search orchestrator (`MemoryManager.search`)

The storage engine's `mv.find` is an external collaborator; since the
source issues every tier's call with the same `searchOptions`
(`k`/`mode`/`snippetChars` computed once before Tier 0), it is modelled as
a function `find : String → List RawHit` with those options folded in.
Alongside the result, the embedding returns the trace of query strings
issued to the engine, in order, which makes the "no further tier is
queried" parts of the specification statable.  `searchTimeMs` (wall-clock
time) is not modelled. -/

/-- An engine hit as returned by `mv.find`: every field may be absent. -/
structure RawHit where
  frameId : Option String
  title : Option String
  score : Option Nat
  snippet : Option String
  label : Option String
deriving Repr, DecidableEq

/-- A normalized `SearchHit` (after the `hit.x || default` defaults in
`MemoryManager.search`; `label` is passed through unchanged, and
`metadata` is not modelled).  Scores are modelled as naturals: the claims
never compute with them. -/
structure SearchHit where
  frameId : String
  title : String
  score : Nat
  snippet : String
  label : Option String
deriving Repr, DecidableEq

/-- `hits.map(hit => ({frameId: hit.frameId || '', ...}))`. -/
def normalizeHit (h : RawHit) : SearchHit :=
  { frameId := h.frameId.getD ""
    title := h.title.getD ""
    score := h.score.getD 0
    snippet := h.snippet.getD ""
    label := h.label }

/-- `SearchResult` (hits plus `totalHits`; the timing field is omitted). -/
structure SearchResult where
  hits : List SearchHit
  totalHits : Nat
deriving Repr, DecidableEq

/-- `keywords.join(' OR ')`. -/
def joinOr : List String → String
  | [] => ""
  | [k] => k
  | k :: ks => k ++ " OR " ++ joinOr ks

/-- Tier 2: `for (const keyword of keywords) { result = await mv.find(keyword, ...); if (result.hits.length > 0) break; }`
Returns the winning hits (or `[]`) and the keywords queried, in order,
up to and including the first success. -/
def sweep (find : String → List RawHit) : List String → List RawHit × List String
  | [] => ([], [])
  | k :: ks =>
    let r := find k
    if r = [] then
      let p := sweep find ks
      (p.1, k :: p.2)
    else (r, [k])

/-- Tiers 0–2 of `MemoryManager.search`: direct query, then (on zero
hits) the OR-of-keywords query, then the single-keyword sweep.  Returns
the raw engine hits of the winning tier together with the trace of all
engine queries issued.  This is the complete fallback chain of the
source: the function contains no further tier. -/
def tierSearch (find : String → List RawHit) (query : String) : List RawHit × List String :=
  let r0 := find query
  if r0 = [] then
    let ks := extractKeywordsS query
    if ks = [] then (r0, [query])
    else
      let orQ := joinOr ks
      let r1 := find orQ
      if r1 = [] then
        let p := sweep find ks
        (p.1, query :: orQ :: p.2)
      else (r1, [query, orQ])
  else (r0, [query])

/-- The label post-filter: `options.label ? hits.filter(hit => hit.label === options.label) : hits`.
Note the JavaScript truthiness test: an empty-string label is falsy and
disables the filter. -/
def applyLabelFilter (label : Option String) (hits : List SearchHit) : List SearchHit :=
  match label with
  | none => hits
  | some l => if l = "" then hits else hits.filter (fun h => decide (h.label = some l))

/-- `MemoryManager.search`: run the tiered fallback, normalize the hits,
apply the label post-filter, and report `totalHits` as the filtered
count.  The second component is the trace of engine queries issued. -/
def searchFn (find : String → List RawHit) (query : String) (label : Option String) :
    SearchResult × List String :=
  let p := tierSearch find query
  let hits := p.1.map normalizeHit
  let filtered := applyLabelFilter label hits
  ({ hits := filtered, totalHits := filtered.length }, p.2)

/-! ## Query rewriter (`LlmService.parseSearchTerms` / `rewriteQuery`)

`parseSearchTerms` cleans the raw model output and parses it in three
layers: strict JSON-array parse, first-bracketed-substring parse,
comma/newline split.  `JSON.parse` is modelled by a parser for JSON
arrays whose elements are string literals or unquoted scalar tokens
(numbers, `true`/`false`/`null`); nested arrays/objects and `\u` escapes
are outside the model.  A successful `JSON.parse` whose result is not an
array falls through to the next layer in the source exactly like a parse
error, so both are modelled as `none`. -/

/-- The backtick character of the Markdown code fences. -/
def backtick : Char := Char.ofNat 96

/-- JS `String.prototype.trim` (whitespace model as in `isSpaceChar`). -/
def trimL (l : List Char) : List Char :=
  ((l.dropWhile isSpaceChar).reverse.dropWhile isSpaceChar).reverse

/-- `cleaned.replace(/^```(?:json)?\s*/i, '')`: strip a leading code
fence, an optional case-insensitive `json` tag, and following
whitespace. -/
def dropFenceStart (l : List Char) : List Char :=
  match l with
  | b1 :: b2 :: b3 :: rest =>
    if b1 == backtick && b2 == backtick && b3 == backtick then
      let rest2 :=
        match rest with
        | c1 :: c2 :: c3 :: c4 :: r =>
          if toLowerChar c1 == 'j' && toLowerChar c2 == 's' &&
             toLowerChar c3 == 'o' && toLowerChar c4 == 'n' then r
          else rest
        | _ => rest
      rest2.dropWhile isSpaceChar
    else l
  | _ => l

/-- `.replace(/\s*```$/i, '')`: strip a trailing code fence and the
whitespace before it. -/
def dropFenceEnd (l : List Char) : List Char :=
  match l.reverse with
  | b1 :: b2 :: b3 :: rest =>
    if b1 == backtick && b2 == backtick && b3 == backtick then
      (rest.dropWhile isSpaceChar).reverse
    else l
  | _ => l

/-- A top-level element of a parsed JSON array: a string literal, or any
other scalar (dropped by the `typeof term === 'string'` filter). -/
inductive JElem where
  | jstr (s : List Char)
  | jother
deriving Repr, DecidableEq

/-- JSON string escape characters (`\u` escapes are outside the model). -/
def escChar (c : Char) : Option Char :=
  if c = '"' then some '"'
  else if c = '\\' then some '\\'
  else if c = '/' then some '/'
  else if c = 'n' then some '\n'
  else if c = 't' then some '\t'
  else if c = 'r' then some '\r'
  else if c = 'b' then some (Char.ofNat 8)
  else if c = 'f' then some (Char.ofNat 12)
  else none

/-- Parse the body of a JSON string literal (after the opening quote),
returning the decoded characters and the input after the closing
quote. -/
def parseStrAux : List Char → Option (List Char × List Char)
  | [] => none
  | c :: cs =>
    if c = '"' then some ([], cs)
    else if c = '\\' then
      match cs with
      | [] => none
      | e :: cs2 =>
        match escChar e with
        | some d => (parseStrAux cs2).map (fun p => (d :: p.1, p.2))
        | none => none
    else (parseStrAux cs).map (fun p => (c :: p.1, p.2))

/-- Characters that may make up an unquoted JSON scalar token. -/
def isScalarChar (c : Char) : Bool :=
  isWordChar c || c = '-' || c = '+' || c = '.'

/-- Loose validity check for unquoted JSON scalars: a number, or one of
the literals `true`, `false`, `null`. -/
def isValidScalar (run : List Char) : Bool :=
  run = "true".data || run = "false".data || run = "null".data ||
  (match run with
   | [] => false
   | c :: _ =>
     (c.isDigit || c = '-') &&
       run.all (fun d => d.isDigit || d = '-' || d = '+' || d = '.' || d = 'e' || d = 'E'))

/-- Parse the elements of a JSON array after the opening bracket, up to
and including the closing bracket (fuel-indexed; callers supply enough
fuel for the input length). -/
def parseElems (fuel : Nat) (l : List Char) : Option (List JElem × List Char) :=
  match fuel with
  | 0 => none
  | fuel + 1 =>
    let l1 := l.dropWhile isSpaceChar
    match l1 with
    | [] => none
    | c :: cs =>
      if c = ']' then some ([], cs)
      else
        let elemParsed : Option (JElem × List Char) :=
          if c = '"' then (parseStrAux cs).map (fun p => (JElem.jstr p.1, p.2))
          else
            let run := (c :: cs).takeWhile isScalarChar
            if run ≠ [] && isValidScalar run then
              some (JElem.jother, (c :: cs).drop run.length)
            else none
        match elemParsed with
        | none => none
        | some (e, rest) =>
          let rest1 := rest.dropWhile isSpaceChar
          match rest1 with
          | ',' :: rest2 =>
            if (rest2.dropWhile isSpaceChar).head? = some ']' then none
            else (parseElems fuel rest2).map (fun p => (e :: p.1, p.2))
          | ']' :: rest2 => some ([e], rest2)
          | _ => none

/-- `JSON.parse` returning an array: parse a complete JSON array (with
only whitespace around it); any other input — invalid JSON or a
non-array value — yields `none`. -/
def parseJsonArray (l : List Char) : Option (List JElem) :=
  match l.dropWhile isSpaceChar with
  | c :: rest =>
    if c = '[' then
      match parseElems (rest.length + 1) rest with
      | some (es, r) => if r.dropWhile isSpaceChar = [] then some es else none
      | none => none
    else none
  | [] => none

/-- The common post-processing of a parsed array:
`parsed.filter(typeof string).map(term => term.trim().toLowerCase()).filter(length > 0)`. -/
def jsonTerms (es : List JElem) : List (List Char) :=
  ((es.filterMap (fun e => match e with | JElem.jstr s => some s | JElem.jother => none)).map
    (fun s => toLowerL (trimL s))).filter (fun t => decide (0 < t.length))

/-- Scan for the first closing bracket, collecting the characters before
it. -/
def takeUntilClose : List Char → Option (List Char)
  | [] => none
  | c :: cs =>
    if c = ']' then some []
    else (takeUntilClose cs).map (fun inner => c :: inner)

/-- `cleaned.match(/\[[\s\S]*?\]/)`: the leftmost, shortest substring
from a `[` to a following `]`.  If the first `[` has no `]` after it, no
later `[` can have one either, so the whole regex fails to match. -/
def firstBracketSub : List Char → Option (List Char)
  | [] => none
  | c :: cs =>
    if c = '[' then (takeUntilClose cs).map (fun inner => '[' :: inner ++ [']'])
    else firstBracketSub cs

/-- The separator class of the fallback split regex `/[,\n]+/`. -/
def isCommaNl (c : Char) : Bool := c = ',' || c = '\n'

/-- `term.replace(/["[\]]/g, '')`: delete quotes and square brackets. -/
def stripQB (t : List Char) : List Char :=
  t.filter (fun c => !(c = '"' || c = '[' || c = ']'))

/-- The last-resort parse:
`cleaned.split(/[,\n]+/).map(term => term.replace(/["[\]]/g, '').trim().toLowerCase()).filter(term => term.length > 1)`. -/
def fallbackTerms (cleaned : List Char) : List (List Char) :=
  ((splitPL isCommaNl cleaned).map (fun t => toLowerL (trimL (stripQB t)))).filter
    (fun t => decide (1 < t.length))

/-- The layered parse of the cleaned model output: strict JSON-array
parse, then a parse of the first bracketed substring, then the
comma/newline fallback split. -/
def parseCleaned (cleaned : List Char) : List (List Char) :=
  match parseJsonArray cleaned with
  | some es => jsonTerms es
  | none =>
    match firstBracketSub cleaned with
    | some sub =>
      match parseJsonArray sub with
      | some es => jsonTerms es
      | none => fallbackTerms cleaned
    | none => fallbackTerms cleaned

/-- `LlmService.parseSearchTerms` (src/services/llmService.ts): trim the
model output, strip Markdown code fences (the `cleaned` variable of the
source), then apply the layered parse above. -/
def parseSearchTerms (response : List Char) : List (List Char) :=
  parseCleaned (dropFenceEnd (dropFenceStart (trimL response)))

/-- `parseSearchTerms` at the `String` interface of the TS method. -/
def parseSearchTermsS (s : String) : List String :=
  (parseSearchTerms s.data).map String.mk

/-- The result of one provider generation call (`tokensUsed` omitted). -/
structure LlmGenerationResult where
  answer : String
  model : String
  provider : String
deriving Repr, DecidableEq

/-- `QueryRewriteResult` of src/services/llmService.ts. -/
structure QueryRewriteResult where
  terms : List String
  model : String
deriving Repr, DecidableEq

/-- `LlmService.rewriteQuery`: if no provider is configured, return the
absent sentinel; otherwise perform the provider call (abstracted as
`providerCall`, `Except.error` modelling a thrown provider error, which
the source catches and maps to `null`), and on success parse the answer
with `parseSearchTerms`.  `question` and `failedKeywords` only shape the
prompt sent to the provider; the source applies no further processing to
the parsed terms. -/
def rewriteQuery (configured : Bool) (question : String) (failedKeywords : List String)
    (providerCall : Except String LlmGenerationResult) : Option QueryRewriteResult :=
  if configured then
    match providerCall with
    | Except.error _ => none
    | Except.ok r => some { terms := parseSearchTermsS r.answer, model := r.model }
  else none

/-! ## MCP tool handlers (`MemvidMcpServer`)

A tool response is `{content:[{type:'text',text}], isError?}`; the single
text block and the optional error flag are modelled directly.  The
handlers' effectful inputs (the stats call, the retrieval result, the
provider call) are passed in as already-performed results; a provider
call that throws is `Except.error`, which the source catches inside
`handleAsk` and degrades to the context-only branch. -/

/-- An MCP tool response: the text content and the optional `isError`
flag (`none` models an absent flag, i.e. success). -/
structure McpToolResponse where
  text : String
  isError : Option Bool
deriving Repr, DecidableEq

/-- The fixed reply of `handleAsk` for an empty memory store. -/
def emptyMemoryText : String :=
  "📭 **Memory is empty.** No information has been stored yet.\n\nUse `memvid_store` to add information to memory first.\n\nExample:\n```\nmemvid_store: title=\"User Preference\", content=\"User prefers dark mode\", label=\"preferences\"\n```"

/-- The `handleAsk` reply when retrieval found nothing. -/
def noRelevantText (question : String) (frameCount : Nat) : String :=
  "🔍 **No relevant memories found** for: \"" ++ question ++ "\"\n\nMemory contains " ++
  toString frameCount ++
  " entries, but none matched your query.\n\nTry:\n- Using different keywords\n- Asking about topics that have been stored\n- Use `memvid_timeline` to see what's in memory"

/-- The context-only rendering of the retrieved hits
(`**[i] title**\nsnippet` blocks under the `Based on my memory` header),
returned when no provider is configured or the provider call failed. -/
def contextOnlyText (hits : List SearchHit) : String :=
  "Based on my memory (" ++ toString hits.length ++ " relevant entries):\n\n" ++
  String.intercalate "\n\n"
    (hits.enum.map (fun p => "**[" ++ toString (p.1 + 1) ++ "] " ++ p.2.title ++ "**\n" ++ p.2.snippet))

/-- The synthesized-answer rendering: the model answer plus a footer with
up to three source titles and the model/provider identifiers. -/
def answerWithSourcesText (r : LlmGenerationResult) (hits : List SearchHit) : String :=
  r.answer ++ "\n\n---\n*Sources: " ++
  String.intercalate ", "
    ((hits.take 3).enum.map (fun p => "[" ++ toString (p.1 + 1) ++ "] " ++ p.2.title)) ++
  "*\n*Model: " ++ r.model ++ " (" ++ r.provider ++ ")*"

/-- `MemvidMcpServer.handleAsk`: empty store → informational reply; no
hit → informational reply; provider configured and the generation call
succeeds with a result → synthesized answer; provider unconfigured, or
the call returns `null`, or the call throws (caught by the handler) →
context-only reply.  `frameCount` is the stats result, `hits` the
retrieval result for the question; the claims below concern executions
where those calls returned normally. -/
def handleAsk (frameCount : Nat) (question : String) (hits : List SearchHit)
    (configured : Bool) (llmOutcome : Except String (Option LlmGenerationResult)) :
    McpToolResponse :=
  if frameCount = 0 then { text := emptyMemoryText, isError := none }
  else if hits.length = 0 then
    { text := noRelevantText question frameCount, isError := none }
  else if configured then
    match llmOutcome with
    | Except.ok (some r) => { text := answerWithSourcesText r hits, isError := none }
    | Except.ok none => { text := contextOnlyText hits, isError := none }
    | Except.error _ => { text := contextOnlyText hits, isError := none }
  else { text := contextOnlyText hits, isError := none }

/-! ## Timeline (`MemoryManager.getTimeline` / `handleTimeline`)

The engine's `timeline` and wildcard `find` calls are passed in as
already-performed `Except` results (`Except.error` = the awaited call
threw).  `getTimeline` wraps its whole body in a `try` whose `catch`
returns the empty list. -/

/-- A raw entry from the engine's `timeline` call, with every field the
mapping code probes (metadata fields are flattened to `meta*`). -/
structure RawTimelineEntry where
  frame_id : Option String
  frameId : Option String
  id : Option String
  preview : Option String
  text : Option String
  content : Option String
  snippet : Option String
  metaTitle : Option String
  metaLabel : Option String
  metaCreatedAt : Option String
  label : Option String
  timestamp : Option Nat
  createdAt : Option String
deriving Repr, DecidableEq

/-- A raw hit from the wildcard `find` fallback of `getTimeline`. -/
structure RawFindHit where
  frameId : Option String
  frame_id : Option String
  id : Option String
  snippet : Option String
  text : Option String
  content : Option String
  title : Option String
  label : Option String
  metaCreatedAt : Option String
  createdAt : Option String
deriving Repr, DecidableEq

/-- A mapped timeline entry. -/
structure TimelineEntry where
  frameId : String
  title : String
  label : String
  createdAt : String
  preview : String
deriving Repr, DecidableEq

/-- JavaScript `a || b` on possibly-absent strings: an absent or empty
(falsy) left operand yields the right operand. -/
def jsOr (a b : Option String) : Option String :=
  match a with
  | some s => if s = "" then b else some s
  | none => b

/-- First line of a string (`s.split('\n')[0]`). -/
def firstLine (s : String) : String :=
  String.mk (s.data.takeWhile (fun c => !(c = '\n')))

/-- `s.substring(0, n)` (code-point model of the UTF-16 slice). -/
def substrTo (s : String) (n : Nat) : String := String.mk (s.data.take n)

/-- Stand-in for the host primitive
`new Date(timestamp * 1000).toISOString()`: an external rendering whose
output is never inspected by the claims below. -/
def isoOfUnixSeconds (secs : Nat) : String := toString secs

/-- The per-entry mapping of the `timeline` branch of `getTimeline`. -/
def mapTimelineEntry (e : RawTimelineEntry) : TimelineEntry :=
  let frameId := (jsOr (jsOr e.frame_id e.frameId) e.id).getD ""
  let preview := (jsOr (jsOr (jsOr e.preview e.text) e.content) e.snippet).getD ""
  let title :=
    match e.metaTitle with
    | some t => if t = "" then
        (if substrTo (firstLine preview) 100 = "" then "Memory Entry"
         else substrTo (firstLine preview) 100)
      else t
    | none =>
      if substrTo (firstLine preview) 100 = "" then "Memory Entry"
      else substrTo (firstLine preview) 100
  let label := (jsOr e.metaLabel e.label).getD "general"
  let createdAt :=
    match e.timestamp with
    | some ts => if 0 < ts then isoOfUnixSeconds ts
        else ((jsOr e.createdAt e.metaCreatedAt).getD "")
    | none => (jsOr e.createdAt e.metaCreatedAt).getD ""
  { frameId := frameId, title := title, label := label, createdAt := createdAt,
    preview := substrTo preview 200 }

/-- The per-hit mapping of the wildcard-`find` fallback branch of
`getTimeline`. -/
def mapFindHit (h : RawFindHit) : TimelineEntry :=
  let frameId := (jsOr (jsOr h.frameId h.frame_id) h.id).getD ""
  let content := (jsOr (jsOr h.snippet h.text) h.content).getD ""
  let title :=
    match h.title with
    | some t => if t = "" then
        (if substrTo (firstLine content) 100 = "" then "Memory Entry"
         else substrTo (firstLine content) 100)
      else t
    | none =>
      if substrTo (firstLine content) 100 = "" then "Memory Entry"
      else substrTo (firstLine content) 100
  let label := (jsOr h.label none).getD "general"
  let createdAt := (jsOr h.metaCreatedAt h.createdAt).getD ""
  { frameId := frameId, title := title, label := label, createdAt := createdAt,
    preview := substrTo content 200 }

/-- The body of `getTimeline` inside its `try`: if the engine has a
`timeline` method, await it (a throw escapes to the catch); with at
least one entry, map the entries.  Otherwise — or when `timeline`
returned no entries — fall back to `find('*', ...)` (again a throw
escapes) and map its hits, or return the empty list. -/
def getTimelineE (hasTimeline : Bool)
    (timelineCall : Except String (List RawTimelineEntry))
    (findCall : Except String (List RawFindHit)) :
    Except String (List TimelineEntry) := do
  if hasTimeline then
    let entries ← timelineCall
    if entries.length ≠ 0 then
      return entries.map mapTimelineEntry
    else
      let hits ← findCall
      if hits.length ≠ 0 then return hits.map mapFindHit
      else return []
  else
    let hits ← findCall
    if hits.length ≠ 0 then return hits.map mapFindHit
    else return []

/-- `MemoryManager.getTimeline`: the body above with its `catch`, which
swallows any engine error and returns the empty list. -/
def getTimeline (hasTimeline : Bool)
    (timelineCall : Except String (List RawTimelineEntry))
    (findCall : Except String (List RawFindHit)) : List TimelineEntry :=
  match getTimelineE hasTimeline timelineCall findCall with
  | Except.ok r => r
  | Except.error _ => []

/-- `MemvidMcpServer.handleTimeline` on the entries `getTimeline`
returned: the fixed empty-timeline text, or the numbered entry list.
(`getTimeline` is total in the model, so the handler's own catch branch
is unreachable and not modelled.) -/
def handleTimeline (entries : List TimelineEntry) : McpToolResponse :=
  if entries.length = 0 then
    { text := "No entries in memory timeline.", isError := none }
  else
    { text := "Recent memory entries:\n\n" ++
        String.intercalate "\n\n"
          (entries.enum.map (fun p =>
            toString (p.1 + 1) ++ ". **" ++ p.2.title ++ "** [" ++
            (if p.2.label = "" then "general" else p.2.label) ++ "]\n   " ++
            p.2.preview ++ "...")),
      isError := none }

/-! ## Loopback bridge router (`startBridgeServer`)

The HTTP server binds to `127.0.0.1` on a random port and dispatches a
request by method and URL path; only the routing decision is modelled. -/

/-- The host the bridge server binds to (`server.listen(0, '127.0.0.1')`). -/
def bridgeHost : String := "127.0.0.1"

/-- Where a bridge request is dispatched. -/
inductive BridgeRoute where
  | optionsOk
  | methodNotAllowed
  | generate
  | available
  | models
  | health
  | notFound
deriving Repr, DecidableEq

/-- The request router of `startBridgeServer` (services/bridgeServer):
`OPTIONS` → 200, non-`POST` → 405, then dispatch on the URL path, with
the not-found branch answering 404. -/
def routeBridge (method url : String) : BridgeRoute :=
  if method = "OPTIONS" then BridgeRoute.optionsOk
  else if method ≠ "POST" then BridgeRoute.methodNotAllowed
  else if url = "/llm/generate" then BridgeRoute.generate
  else if url = "/llm/available" then BridgeRoute.available
  else if url = "/llm/models" then BridgeRoute.models
  else if url = "/health" then BridgeRoute.health
  else BridgeRoute.notFound

/-- The URL path `LlmService.callCopilotBridgeForRewrite` POSTs to
(`http://127.0.0.1:${port}/llm/rewrite`). -/
def rewriteBridgePath : String := "/llm/rewrite"

/-! ## Concrete fixtures used by witnesses and counterexamples -/

/-- The stored entry of the spec scenario: titled `DB choice` with
content `Uses PostgreSQL`. -/
def pgRawHit : RawHit :=
  { frameId := some "frame-1", title := some "DB choice", score := some 1,
    snippet := some "Uses PostgreSQL", label := some "general" }

/-- An engine in which only the query `postgresql` matches the stored
entry (the query `database` misses at every tier, as in the spec's
Tier-3 scenario). -/
def findPg (q : String) : List RawHit :=
  if q = "postgresql" then [pgRawHit] else []

/-- A labelled raw hit for the label-filter fixtures. -/
def rawHitL (i : Nat) (lab : Option String) : RawHit :=
  { frameId := some (toString i), title := some ("t" ++ toString i),
    score := some 1, snippet := some "s", label := lab }

/-- An engine returning five hits for every query, two of them labelled
`proj` (the spec's 5-hits/2-matching post-filter fixture). -/
def find5 (q : String) : List RawHit :=
  [rawHitL 1 (some "proj"), rawHitL 2 (some "other"), rawHitL 3 (some "proj"),
   rawHitL 4 none, rawHitL 5 (some "misc")]

/-- An engine returning one hit labelled `a` for every query. -/
def find1 (q : String) : List RawHit := [rawHitL 1 (some "a")]

/-- A model answer with nine terms, a duplicate, and a term equal to an
already-attempted keyword. -/
def nineTermAnswer : String :=
  "[\"t1\",\"t1\",\"t2\",\"t3\",\"t4\",\"t5\",\"t6\",\"t7\",\"database\"]"

/-- A retrieved hit for the `handleAsk` fixtures. -/
def askHit : SearchHit :=
  { frameId := "f1", title := "T", score := 1, snippet := "S", label := some "general" }

/-! ## Helper lemmas -/

/-- Lowercasing is idempotent per character: the lowercase table maps
into characters outside its own domain. -/
theorem toLowerChar_idem (c : Char) : toLowerChar (toLowerChar c) = toLowerChar c := by
  cases h : lowerMap.find? (fun q => q.1 == c) with
  | none =>
    have h1 : toLowerChar c = c := by unfold toLowerChar; rw [h]
    rw [h1, h1]
  | some p =>
    have h1 : toLowerChar c = p.2 := by unfold toLowerChar; rw [h]
    have hp : p ∈ lowerMap := List.mem_of_find?_eq_some h
    have hall := List.all_eq_true.mp
      (show lowerMap.all (fun r => (lowerMap.find? (fun q => q.1 == r.2)).isNone) = true by decide)
      p hp
    have h2 : lowerMap.find? (fun q => q.1 == p.2) = none := by
      simpa using hall
    rw [h1]; unfold toLowerChar; rw [h2]

/-- Lowercasing a list twice equals lowercasing it once. -/
theorem toLowerL_idem (l : List Char) : toLowerL (toLowerL l) = toLowerL l := by
  unfold toLowerL
  rw [List.map_map]
  exact List.map_congr_left (fun c _ => toLowerChar_idem c)

/-- Letters and digits are not whitespace. -/
theorem isWordChar_not_space (c : Char) (h : isWordChar c = true) : isSpaceChar c = false := by
  simp only [isWordChar, Bool.or_eq_true, Bool.and_eq_true, decide_eq_true_eq] at h
  simp only [isSpaceChar, Bool.or_eq_false_iff, decide_eq_false_iff_not]
  omega

/-- A split never yields the empty fragment list. -/
theorem splitPL_ne_nil (p : Char → Bool) (l : List Char) : splitPL p l ≠ [] := by
  induction l with
  | nil => simp [splitPL]
  | cons c cs ih =>
    unfold splitPL
    by_cases h : p c
    · simp [h]
    · simp only [h]
      cases hs : splitPL p cs with
      | nil => exact absurd hs ih
      | cons t ts => simp

/-- Characters of split fragments do not satisfy the separator predicate
and come from the input. -/
theorem mem_splitPL (p : Char → Bool) :
    ∀ (l w : List Char), w ∈ splitPL p l → ∀ c ∈ w, p c = false ∧ c ∈ l := by
  intro l
  induction l with
  | nil =>
    intro w hw c hc
    simp [splitPL] at hw
    subst hw
    simp at hc
  | cons a cs ih =>
    intro w hw c hc
    unfold splitPL at hw
    by_cases h : p a
    · simp only [h, if_true, List.mem_cons] at hw
      rcases hw with hw | hw
      · subst hw; simp at hc
      · obtain ⟨h1, h2⟩ := ih w hw c hc
        exact ⟨h1, List.mem_cons_of_mem a h2⟩
    · simp only [h, if_false, Bool.false_eq_true] at hw
      cases hs : splitPL p cs with
      | nil => exact absurd hs (splitPL_ne_nil p cs)
      | cons t ts =>
        rw [hs] at hw
        simp only [List.mem_cons] at hw
        rcases hw with hw | hw
        · subst hw
          rcases List.mem_cons.mp hc with rfl | hct
          · exact ⟨by simpa using h, List.mem_cons_self _ _⟩
          · have ht : t ∈ splitPL p cs := by rw [hs]; exact List.mem_cons_self _ _
            obtain ⟨h1, h2⟩ := ih t ht c hct
            exact ⟨h1, List.mem_cons_of_mem a h2⟩
        · have hts : w ∈ splitPL p cs := by rw [hs]; exact List.mem_cons_of_mem t hw
          obtain ⟨h1, h2⟩ := ih w hts c hc
          exact ⟨h1, List.mem_cons_of_mem a h2⟩

/-- Deduplicated elements come from the input. -/
theorem mem_dedupFirstAux :
    ∀ (l seen : List (List Char)) (a : List Char), a ∈ dedupFirstAux seen l → a ∈ l := by
  intro l
  induction l with
  | nil => intro seen a ha; simp [dedupFirstAux] at ha
  | cons b l ih =>
    intro seen a ha
    unfold dedupFirstAux at ha
    by_cases h : b ∈ seen
    · simp only [h, if_true] at ha
      exact List.mem_cons_of_mem b (ih seen a ha)
    · simp only [h, if_false, List.mem_cons] at ha
      rcases ha with rfl | ha
      · exact List.mem_cons_self _ _
      · exact List.mem_cons_of_mem b (ih (b :: seen) a ha)

/-- The deduplicated list has no duplicates, and avoids the accumulator. -/
theorem nodup_dedupFirstAux :
    ∀ (l seen : List (List Char)),
      (dedupFirstAux seen l).Nodup ∧ ∀ a ∈ dedupFirstAux seen l, a ∉ seen := by
  intro l
  induction l with
  | nil => intro seen; simp [dedupFirstAux]
  | cons b l ih =>
    intro seen
    unfold dedupFirstAux
    by_cases h : b ∈ seen
    · simp only [h, if_true]
      exact ih seen
    · simp only [h, if_false]
      obtain ⟨hnd, havoid⟩ := ih (b :: seen)
      constructor
      · refine List.nodup_cons.mpr ⟨?_, hnd⟩
        intro hb
        exact havoid b hb (List.mem_cons_self _ _)
      · intro a ha
        rcases List.mem_cons.mp ha with rfl | ha
        · exact h
        · intro hseen
          exact havoid a ha (List.mem_cons_of_mem b hseen)

/-- Deduplication is the identity on duplicate-free input avoiding the
accumulator. -/
theorem dedupFirstAux_eq_self :
    ∀ (l seen : List (List Char)), l.Nodup → (∀ a ∈ l, a ∉ seen) →
      dedupFirstAux seen l = l := by
  intro l
  induction l with
  | nil => intro seen _ _; rfl
  | cons b l ih =>
    intro seen hnd hav
    unfold dedupFirstAux
    have hb : b ∉ seen := hav b (List.mem_cons_self _ _)
    simp only [hb, if_false]
    congr 1
    refine ih (b :: seen) (List.nodup_cons.mp hnd).2 ?_
    intro a ha
    intro hmem
    rcases List.mem_cons.mp hmem with rfl | hmem
    · exact (List.nodup_cons.mp hnd).1 ha
    · exact hav a (List.mem_cons_of_mem b ha) hmem

/-- Every character of a keyword token is a letter/digit fixed by
lowercasing: it survived the separator replacement and came from the
lowercased query. -/
theorem token_chars (q w : List Char)
    (hw : w ∈ splitPL isSpaceChar (replaceNonWord (toLowerL q))) :
    ∀ c ∈ w, isWordChar c = true ∧ toLowerChar c = c := by
  intro c hc
  obtain ⟨hpc, hmem⟩ := mem_splitPL isSpaceChar _ w hw c hc
  unfold replaceNonWord at hmem
  obtain ⟨b, hb, hbc⟩ := List.mem_map.mp hmem
  obtain ⟨a, _, hab⟩ := List.mem_map.mp hb
  by_cases hcase : (isWordChar b || isSpaceChar b) = true
  · rw [if_pos hcase] at hbc
    subst hbc
    refine ⟨?_, ?_⟩
    · have hcase2 : isWordChar b = true ∨ isSpaceChar b = true := by simpa using hcase
      rcases hcase2 with h | h
      · exact h
      · rw [h] at hpc; exact absurd hpc (by simp)
    · rw [← hab]
      exact toLowerChar_idem a
  · rw [if_neg hcase] at hbc
    rw [← hbc] at hpc
    simp [isSpaceChar] at hpc

/-- The extracted keyword list has no duplicates. -/
theorem extractKeywords_nodup (q : List Char) : (extractKeywords q).Nodup :=
  (nodup_dedupFirstAux _ []).1

/-- Every extracted keyword is a long non-stopword token of
lowercase-fixed letters/digits. -/
theorem extractKeywords_mem (q : List Char) :
    ∀ w ∈ extractKeywords q,
      2 < w.length ∧ w ∉ stopwordsL ∧
      (∀ c ∈ w, isWordChar c = true ∧ toLowerChar c = c) := by
  intro w hw
  have hw1 := mem_dedupFirstAux _ [] w hw
  obtain ⟨hsplit, hpred⟩ := List.mem_filter.mp hw1
  have hlen : 2 < w.length := by
    have := (Bool.and_eq_true _ _).mp hpred
    simpa using this.1
  have hstop : w ∉ stopwordsL := by
    have := (Bool.and_eq_true _ _).mp hpred
    simpa using this.2
  exact ⟨hlen, hstop, token_chars q w hsplit⟩

/-- A query whose tokens are all short or stopwords extracts nothing. -/
theorem extractKeywords_all_filtered (q : List Char)
    (h : ∀ w ∈ splitPL isSpaceChar (replaceNonWord (toLowerL q)),
      w.length ≤ 2 ∨ w ∈ stopwordsL) :
    extractKeywords q = [] := by
  unfold extractKeywords dedupFirst
  have hfil : (splitPL isSpaceChar (replaceNonWord (toLowerL q))).filter
      (fun w => decide (2 < w.length) && !(decide (w ∈ stopwordsL))) = [] := by
    rw [List.filter_eq_nil_iff]
    intro w hw
    rcases h w hw with h1 | h1 <;> simp [h1]
  rw [hfil]
  rfl

/-- Prepending separator-free characters extends the first fragment. -/
theorem splitPL_append_nonsep (p : Char → Bool) (w : List Char)
    (hw : ∀ c ∈ w, p c = false) :
    ∀ (l : List Char) (t : List Char) (ts : List (List Char)),
      splitPL p l = t :: ts → splitPL p (w ++ l) = (w ++ t) :: ts := by
  induction w with
  | nil => intro l t ts hl; simpa using hl
  | cons c w' ih =>
    intro l t ts hl
    have hc : p c = false := hw c (List.mem_cons_self _ _)
    have hw' : ∀ c' ∈ w', p c' = false := fun c' h => hw c' (List.mem_cons_of_mem _ h)
    have ih' := ih hw' l t ts hl
    show splitPL p (c :: (w' ++ l)) = ((c :: w') ++ t) :: ts
    unfold splitPL
    rw [hc]
    simp only [Bool.false_eq_true, if_false]
    rw [ih']
    rfl

/-- Splitting the space-join of separator-free fragments recovers the
fragments. -/
theorem splitPL_joinSp (ks : List (List Char)) (hne : ks ≠ [])
    (hw : ∀ w ∈ ks, ∀ c ∈ w, isSpaceChar c = false) :
    splitPL isSpaceChar (joinSp ks) = ks := by
  induction ks with
  | nil => exact absurd rfl hne
  | cons w ks' ih =>
    have hwc : ∀ c ∈ w, isSpaceChar c = false := hw w (List.mem_cons_self _ _)
    cases ks' with
    | nil =>
      show splitPL isSpaceChar (joinSp [w]) = [w]
      have h0 : splitPL isSpaceChar ([] : List Char) = [] :: [] := rfl
      have := splitPL_append_nonsep isSpaceChar w hwc [] [] [] h0
      simpa [joinSp] using this
    | cons w2 ks'' =>
      have hw' : ∀ v ∈ w2 :: ks'', ∀ c ∈ v, isSpaceChar c = false :=
        fun v hv => hw v (List.mem_cons_of_mem _ hv)
      have ih' : splitPL isSpaceChar (joinSp (w2 :: ks'')) = w2 :: ks'' :=
        ih (by simp) hw'
      have hsp : splitPL isSpaceChar (' ' :: joinSp (w2 :: ks'')) =
          [] :: w2 :: ks'' := by
        unfold splitPL
        rw [show isSpaceChar ' ' = true from rfl]
        simp only [if_true]
        rw [ih']
      have := splitPL_append_nonsep isSpaceChar w hwc
        (' ' :: joinSp (w2 :: ks'')) [] (w2 :: ks'') hsp
      show splitPL isSpaceChar (w ++ ' ' :: joinSp (w2 :: ks'')) = w :: w2 :: ks''
      simpa using this

/-- Every character of a space-join is a fragment character or a space. -/
theorem mem_joinSp (ks : List (List Char)) (c : Char) (hc : c ∈ joinSp ks) :
    (∃ w ∈ ks, c ∈ w) ∨ c = ' ' := by
  induction ks with
  | nil => simp [joinSp] at hc
  | cons w ks' ih =>
    cases ks' with
    | nil =>
      simp only [joinSp] at hc
      exact Or.inl ⟨w, List.mem_cons_self _ _, hc⟩
    | cons w2 ks'' =>
      simp only [joinSp, List.mem_append, List.mem_cons] at hc
      rcases hc with hc | hc | hc
      · exact Or.inl ⟨w, List.mem_cons_self _ _, hc⟩
      · exact Or.inr hc
      · rcases ih hc with ⟨v, hv, hcv⟩ | hc
        · exact Or.inl ⟨v, List.mem_cons_of_mem _ hv, hcv⟩
        · exact Or.inr hc

/-- A map whose function fixes every element of the list is the
identity. -/
theorem map_eq_self_of_fixed (f : Char → Char) :
    ∀ (l : List Char), (∀ c ∈ l, f c = c) → l.map f = l := by
  intro l
  induction l with
  | nil => intro _; rfl
  | cons c cs ih =>
    intro h
    simp only [List.map_cons]
    rw [h c (List.mem_cons_self _ _), ih (fun d hd => h d (List.mem_cons_of_mem _ hd))]

/-- Re-extracting from the space-join of an extraction changes nothing
(the shared core of the idempotence claim). -/
theorem extractKeywords_joinSp_eq (q : List Char) :
    extractKeywords (joinSp (extractKeywords q)) = extractKeywords q := by
  by_cases hne : extractKeywords q = []
  · rw [hne]
    decide
  · have hmem := extractKeywords_mem q
    have hnodup := extractKeywords_nodup q
    have hchars : ∀ c ∈ joinSp (extractKeywords q),
        toLowerChar c = c ∧ (isWordChar c || isSpaceChar c) = true := by
      intro c hc
      rcases mem_joinSp _ c hc with ⟨w, hw, hcw⟩ | rfl
      · obtain ⟨_, _, hch⟩ := hmem w hw
        obtain ⟨hword, hlow⟩ := hch c hcw
        exact ⟨hlow, by simp [hword]⟩
      · exact ⟨by decide, by decide⟩
    have h1 : toLowerL (joinSp (extractKeywords q)) = joinSp (extractKeywords q) := by
      unfold toLowerL
      exact map_eq_self_of_fixed _ _ (fun c hc => (hchars c hc).1)
    have h2 : replaceNonWord (joinSp (extractKeywords q)) = joinSp (extractKeywords q) := by
      unfold replaceNonWord
      exact map_eq_self_of_fixed _ _ (fun c hc => by simp [(hchars c hc).2])
    have h3 : splitPL isSpaceChar (joinSp (extractKeywords q)) = extractKeywords q := by
      refine splitPL_joinSp _ hne ?_
      intro w hw c hc
      obtain ⟨_, _, hch⟩ := hmem w hw
      exact isWordChar_not_space c (hch c hc).1
    have h4 : (extractKeywords q).filter
        (fun w => decide (2 < w.length) && !(decide (w ∈ stopwordsL))) = extractKeywords q := by
      rw [List.filter_eq_self]
      intro w hw
      obtain ⟨hlen, hstop, _⟩ := hmem w hw
      simp [hlen, hstop]
    show dedupFirst
      ((splitPL isSpaceChar (replaceNonWord (toLowerL (joinSp (extractKeywords q))))).filter
        (fun w => decide (2 < w.length) && !(decide (w ∈ stopwordsL)))) = extractKeywords q
    rw [h1, h2, h3, h4]
    unfold dedupFirst
    exact dedupFirstAux_eq_self _ [] hnodup (by simp)

/-- Terms produced by the JSON branch are non-empty and lowercase-fixed. -/
theorem jsonTerms_clean (es : List JElem) :
    ∀ t ∈ jsonTerms es, 0 < t.length ∧ t.map toLowerChar = t := by
  intro t ht
  obtain ⟨hmem, hpred⟩ := List.mem_filter.mp ht
  obtain ⟨s, _, hs⟩ := List.mem_map.mp hmem
  refine ⟨by simpa using hpred, ?_⟩
  rw [← hs]
  exact toLowerL_idem (trimL s)

/-- Terms produced by the fallback branch are non-empty and
lowercase-fixed. -/
theorem fallbackTerms_clean (l : List Char) :
    ∀ t ∈ fallbackTerms l, 0 < t.length ∧ t.map toLowerChar = t := by
  intro t ht
  obtain ⟨hmem, hpred⟩ := List.mem_filter.mp ht
  obtain ⟨s, _, hs⟩ := List.mem_map.mp hmem
  have hlen : 1 < t.length := by simpa using hpred
  refine ⟨by omega, ?_⟩
  rw [← hs]
  exact toLowerL_idem (trimL (stripQB s))

/-- Every parsed search term is non-empty and lowercase-fixed, whichever
parse layer produced it. -/
theorem parseSearchTerms_clean (l t : List Char) (ht : t ∈ parseSearchTerms l) :
    0 < t.length ∧ t.map toLowerChar = t := by
  unfold parseSearchTerms at ht
  generalize dropFenceEnd (dropFenceStart (trimL l)) = cleaned at ht
  unfold parseCleaned at ht
  rcases h1 : parseJsonArray cleaned with _ | es
  · rcases h2 : firstBracketSub cleaned with _ | sub
    · simp only [h1, h2] at ht
      exact fallbackTerms_clean cleaned t ht
    · rcases h3 : parseJsonArray sub with _ | es2
      · simp only [h1, h2, h3] at ht
        exact fallbackTerms_clean cleaned t ht
      · simp only [h1, h2, h3] at ht
        exact jsonTerms_clean es2 t ht
  · simp only [h1] at ht
    exact jsonTerms_clean es t ht

/-! ## Claims -/

/-- C6: For every query, `extractKeywords` returns a duplicate-free list
of lower-cased letter/digit tokens, each longer than 2 characters and
not in the fixed bilingual stopword list; and a query whose tokens are
all stopwords or too short — in particular one of only stopwords and/or
punctuation — yields the empty list.  The embedding is a total function,
matching "never throws". -/
theorem c6_extractKeywords_contract (q : List Char) :
    (extractKeywords q).Nodup ∧
    (∀ w ∈ extractKeywords q,
      2 < w.length ∧ w ∉ stopwordsL ∧ w.map toLowerChar = w ∧
      ∀ c ∈ w, isWordChar c = true) ∧
    ((∀ w ∈ splitPL isSpaceChar (replaceNonWord (toLowerL q)),
        w.length ≤ 2 ∨ w ∈ stopwordsL) → extractKeywords q = []) := by
  refine ⟨extractKeywords_nodup q, ?_, extractKeywords_all_filtered q⟩
  intro w hw
  obtain ⟨hlen, hstop, hch⟩ := extractKeywords_mem q w hw
  refine ⟨hlen, hstop, ?_, fun c hc => (hch c hc).1⟩
  exact map_eq_self_of_fixed _ _ (fun c hc => (hch c hc).2)

/-- Witness for C6: a stopword/punctuation-only query extracts nothing
(discharging the conjunct's hypothesis at a concrete input), and a mixed
query extracts the expected lowercase tokens. -/
theorem c6_witness :
    extractKeywords ("the und!!".data) = [] ∧
    extractKeywords ("Docker, der Container!".data) = ["docker".data, "container".data] :=
  ⟨(c6_extractKeywords_contract ("the und!!".data)).2.2 (by decide), by decide⟩

/-- C7: stopword filtering is idempotent — extracting keywords from the
whitespace-join of a previous extraction reproduces that extraction
exactly. -/
theorem c7_extract_idempotent (q : List Char) :
    extractKeywords (joinSp (extractKeywords q)) = extractKeywords q :=
  extractKeywords_joinSp_eq q

/-- C4: whenever the Tier-0 direct engine query yields at least one hit,
`search` returns exactly that result (normalized and label
post-filtered), and the engine trace is the single direct query: no
keyword extraction query, no OR query, no single-keyword sweep and no
rewrite search is issued. -/
theorem c4_tier0_short_circuit (find : String → List RawHit) (query : String)
    (label : Option String) (h : find query ≠ []) :
    searchFn find query label =
      ({ hits := applyLabelFilter label ((find query).map normalizeHit),
         totalHits := (applyLabelFilter label ((find query).map normalizeHit)).length },
       [query]) := by
  unfold searchFn tierSearch
  simp [h]

/-- Witness for C4: the five-hit engine answers the direct query, the
trace is that single query, and the label filter leaves two hits. -/
theorem c4_witness :
    searchFn find5 "alpha" (some "proj") =
      ({ hits := applyLabelFilter (some "proj") ((find5 "alpha").map normalizeHit),
         totalHits := (applyLabelFilter (some "proj") ((find5 "alpha").map normalizeHit)).length },
       ["alpha"]) ∧
    (searchFn find5 "alpha" (some "proj")).1.totalHits = 2 ∧
    (searchFn find5 "alpha" (some "proj")).2 = ["alpha"] :=
  ⟨c4_tier0_short_circuit find5 "alpha" (some "proj") (by decide), by decide, by decide⟩

/-- C5 counterexample: a search invocation carrying the empty-string
label option is not post-filtered at all — `options.label` is falsy in
JavaScript — so with one engine hit labelled `a` the result reports
`totalHits = 1`, although zero hits have label `""`.  This refutes the
claim as stated for that label option. -/
theorem c5_counterexample :
    (searchFn find1 "query" (some "")).1.totalHits = 1 ∧
    (((find1 "query").map normalizeHit).filter (fun h => decide (h.label = some ""))).length = 0 := by
  decide

/-- C5 (amended to non-empty label options): the label filter is a pure
post-filter — the filtered hits are exactly the unfiltered hits
restricted to the requested label, `totalHits` is the filtered count,
and the engine trace is identical with and without the label option, so
an emptied result never triggers a further tier or re-query. -/
theorem c5_label_post_filter (find : String → List RawHit) (query : String) (l : String)
    (hl : l ≠ "") :
    (searchFn find query (some l)).1.hits =
      ((searchFn find query none).1.hits).filter (fun h => decide (h.label = some l)) ∧
    (searchFn find query (some l)).1.totalHits =
      ((searchFn find query (some l)).1.hits).length ∧
    (searchFn find query (some l)).2 = (searchFn find query none).2 := by
  unfold searchFn applyLabelFilter
  simp [hl]

/-- Witness for C5: five engine hits, two labelled `proj` — the filtered
search reports `totalHits = 2` against 5 unfiltered, over the identical
engine trace. -/
theorem c5_witness :
    ((searchFn find5 "beta" (some "proj")).1.hits =
      ((searchFn find5 "beta" none).1.hits).filter (fun h => decide (h.label = some "proj")) ∧
     (searchFn find5 "beta" (some "proj")).1.totalHits =
      ((searchFn find5 "beta" (some "proj")).1.hits).length ∧
     (searchFn find5 "beta" (some "proj")).2 = (searchFn find5 "beta" none).2) ∧
    (searchFn find5 "beta" (some "proj")).1.totalHits = 2 ∧
    (searchFn find5 "beta" none).1.totalHits = 5 :=
  ⟨c5_label_post_filter find5 "beta" "proj" (by decide), by decide, by decide⟩

/-- C1 (code evaluation at the failing input): in the spec's Tier-3
scenario — a store whose engine matches only the rewritten term
`postgresql`, query `database` — `search` issues exactly three engine
queries (direct, OR, single-keyword, all `database`), never issues
`postgresql`, and terminates with the empty result, although the engine
holds the matching `DB choice` entry.  The fallback chain of
`MemoryManager.search` contains no Tier-3: `LlmService.rewriteQuery` is
never invoked from it. -/
theorem c1_no_tier3_rewrite :
    searchFn findPg "database" none =
      ({ hits := [], totalHits := 0 }, ["database", "database", "database"]) ∧
    findPg "postgresql" = [pgRawHit] ∧
    "postgresql" ∉ (searchFn findPg "database" none).2 := by
  decide

/-- C2 counterexample: on the malformed output `a, b, c` the parser
returns the empty list, not `["a","b","c"]` — the fallback split keeps
only terms of length greater than 1, and each of these has length 1. -/
theorem c2_counterexample :
    parseSearchTermsS "a, b, c" = [] ∧ parseSearchTermsS "a, b, c" ≠ ["a", "b", "c"] := by
  decide

/-- C2 (amended): the fenced JSON fixture parses to `["a","b"]`; the
malformed `a, b, c` parses to the empty list (single-character
fallback terms are discarded), while comma-separated terms of length ≥ 2
are kept, e.g. `aa, bb, cc`; and output with no extractable terms yields
the empty list without error. -/
theorem c2_parse_fixtures :
    parseSearchTermsS "```json\n[\"a\", \"b\"]\n```" = ["a", "b"] ∧
    parseSearchTermsS "a, b, c" = [] ∧
    parseSearchTermsS "aa, bb, cc" = ["aa", "bb", "cc"] ∧
    parseSearchTermsS "" = [] := by
  decide

/-- C3 counterexample: a nine-term model answer containing a duplicate
and an already-attempted keyword passes through `rewriteQuery`
unchanged — the result has nine terms (more than 8), is not
deduplicated, and contains the failed keyword `database`. -/
theorem c3_counterexample :
    rewriteQuery true "database question" ["database"]
        (Except.ok { answer := nineTermAnswer, model := "m", provider := "openai" }) =
      some { terms := ["t1", "t1", "t2", "t3", "t4", "t5", "t6", "t7", "database"],
             model := "m" } ∧
    ¬ (["t1", "t1", "t2", "t3", "t4", "t5", "t6", "t7", "database"] : List String).Nodup ∧
    (["t1", "t1", "t2", "t3", "t4", "t5", "t6", "t7", "database"] : List String).length = 9 ∧
    "database" ∈ (["t1", "t1", "t2", "t3", "t4", "t5", "t6", "t7", "database"] : List String) := by
  decide

/-- C3 (amended): every term of a produced `QueryRewriteResult` is
non-empty and lower-cased; the 8-term cap, deduplication and
failed-keyword exclusion are only requested of the model in the prompt
and are not enforced by the code. -/
theorem c3_rewrite_terms_clean (cfg : Bool) (question : String) (failedKeywords : List String)
    (call : Except String LlmGenerationResult) (r : QueryRewriteResult)
    (h : rewriteQuery cfg question failedKeywords call = some r) :
    ∀ t ∈ r.terms, t ≠ "" ∧ t.data.map toLowerChar = t.data := by
  intro t ht
  unfold rewriteQuery at h
  cases cfg with
  | false => simp at h
  | true =>
    cases call with
    | error e => simp at h
    | ok res =>
      simp only [if_true] at h
      have hr : r = { terms := parseSearchTermsS res.answer, model := res.model } := by
        cases h
        rfl
      subst hr
      simp only [parseSearchTermsS] at ht
      obtain ⟨u, hu, hut⟩ := List.mem_map.mp ht
      obtain ⟨hlen, hfix⟩ := parseSearchTerms_clean res.answer.data u hu
      constructor
      · intro heq
        rw [← hut] at heq
        have : u = [] := by
          have := congrArg String.data heq
          simpa using this
        rw [this] at hlen
        simp at hlen
      · rw [← hut]
        exact hfix

/-- Witness for C3 (amended), at a one-term provider answer. -/
theorem c3_witness :
    rewriteQuery true "q" []
        (Except.ok { answer := "[\"aa\"]", model := "m", provider := "openai" }) =
      some { terms := ["aa"], model := "m" } ∧
    (("aa" : String) ≠ "" ∧ "aa".data.map toLowerChar = "aa".data) :=
  ⟨by decide,
   c3_rewrite_terms_clean true "q" []
     (Except.ok { answer := "[\"aa\"]", model := "m", provider := "openai" })
     { terms := ["aa"], model := "m" } (by decide) "aa" (by decide)⟩

/-- C8: when memory is non-empty, retrieval produced at least one hit, a
provider is configured and the generation call throws, `handleAsk` still
answers without the error flag, with exactly the context-only rendering
of the retrieved hits. -/
theorem c8_ask_degrades (frameCount : Nat) (question : String) (hits : List SearchHit)
    (e : String) (hfc : frameCount ≠ 0) (hh : hits.length ≠ 0) :
    handleAsk frameCount question hits true (Except.error e) =
      { text := contextOnlyText hits, isError := none } := by
  unfold handleAsk
  simp [hfc, hh]

/-- Witness for C8: one retrieved hit, provider throws — the response is
the concrete context-only text with `isError` absent. -/
theorem c8_witness :
    handleAsk 3 "q?" [askHit] true (Except.error "boom") =
      { text := contextOnlyText [askHit], isError := none } ∧
    contextOnlyText [askHit] = "Based on my memory (1 relevant entries):\n\n**[1] T**\nS" ∧
    (handleAsk 3 "q?" [askHit] true (Except.error "boom")).isError = none :=
  ⟨c8_ask_degrades 3 "q?" [askHit] "boom" (by decide) (by decide), by decide, by decide⟩

/-- C9 (code evaluation at the failing input): the bridge router
dispatches `POST /llm/generate` to the generate handler and binds to
localhost, but answers the not-found branch for `POST /llm/rewrite` —
the very path `LlmService.callCopilotBridgeForRewrite` targets.  The
spec's `/llm/rewrite` endpoint does not exist in the bridge. -/
theorem c9_bridge_missing_rewrite :
    routeBridge "POST" "/llm/generate" = BridgeRoute.generate ∧
    routeBridge "POST" rewriteBridgePath = BridgeRoute.notFound ∧
    bridgeHost = "127.0.0.1" := by
  decide

/-- C10: a thrown engine `timeline` call — or a thrown wildcard-`find`
fallback, whether the `timeline` method is absent or returned no
entries — is swallowed by `getTimeline` into the empty list, so the
timeline tool answers exactly the response of a genuinely empty store:
the fixed `No entries in memory timeline.` text with no error flag. -/
theorem c10_timeline_error_indistinguishable (e : String)
    (tl : Except String (List RawTimelineEntry)) (fc : Except String (List RawFindHit)) :
    getTimeline true (Except.error e) fc = [] ∧
    getTimeline false tl (Except.error e) = [] ∧
    getTimeline true (Except.ok []) (Except.error e) = [] ∧
    handleTimeline (getTimeline true (Except.error e) fc) =
      handleTimeline (getTimeline true (Except.ok []) (Except.ok [])) ∧
    (handleTimeline (getTimeline true (Except.error e) fc)).isError = none ∧
    (handleTimeline (getTimeline true (Except.error e) fc)).text =
      "No entries in memory timeline." :=
  ⟨rfl, rfl, rfl, rfl, rfl, rfl⟩
